import Mathlib

/-!
Verification of the browsint scraper core against its specification.

The definitions below are shallow embeddings of the Python sources under
`src/`: pure functions become Lean functions, the SQLite tables become
explicit list-valued states, machine effects (network, disk cache, the
wall clock, `random.uniform`) become explicit oracle arguments, and a
Python exception becomes an `Except` value.  Sets built by the Python code
are modelled as duplicate-free lists (`insertNew`).
-/

namespace Browsint

/-- Python `set.add` on a set modelled as a duplicate-free list. -/
def insertNew (l : List String) (x : String) : List String :=
  if x ∈ l then l else l ++ [x]

/-- Python `str.split(sep)` for a one-character separator, over the
character list of the string (e.g. `"a@b".split('@') = ["a", "b"]` and
`"".split('@') = [""]`). -/
def splitOnChar (sep : Char) : List Char → List (List Char)
  | [] => [[]]
  | c :: rest =>
    match splitOnChar sep rest with
    | [] => [[c]]
    | p :: ps => if c == sep then [] :: p :: ps else (c :: p) :: ps

/-- Python `str.lower()` (ASCII case folding, which is all the scraper's
candidates use). -/
def strToLower (s : String) : String :=
  String.mk (s.toList.map Char.toLower)

/-- Python `int(s)` restricted to the digit-only strings the phone filter
feeds it: `some` of the decimal value on a nonempty all-digit string,
`none` (a `ValueError`) otherwise. -/
def parseDigits (l : List Char) : Option Nat :=
  if l ≠ [] ∧ l.all Char.isDigit then
    some (l.foldl (fun n c => 10 * n + (c.toNat - '0'.toNat)) 0)
  else none

/-! ### Contact extraction (`src/scraper/utils/extractors.py`) -/

/-- A character of the regex class `[0-9a-f]` used by the hex local-part
patterns of `extract_emails`. -/
def isHexLower (c : Char) : Bool :=
  c.isDigit || (decide ('a' ≤ c) && decide (c ≤ 'f'))

/-- The pattern `^[0-9a-f]{32}@` from `excluded_patterns` in
`extract_emails`: 32 lowercase-hex characters followed by `@` (an MD5-shaped
local part), matched at the start of the candidate. -/
def md5LocalPattern (s : String) : Bool :=
  let cs := s.toList
  decide (33 ≤ cs.length) && (cs.take 32).all isHexLower && (cs.getD 32 ' ' == '@')

/-- The pattern `^[0-9a-f]{8}[0-9a-f]{4}[0-9a-f]{4}[0-9a-f]{4}[0-9a-f]{12}@`
from `excluded_patterns` in `extract_emails` (a dashless UUID-shaped hex local
part), matched at the start of the candidate. -/
def uuidLocalPattern (s : String) : Bool :=
  let cs := s.toList
  decide (33 ≤ cs.length) &&
    (cs.take 8).all isHexLower &&
    ((cs.drop 8).take 4).all isHexLower &&
    ((cs.drop 12).take 4).all isHexLower &&
    ((cs.drop 16).take 4).all isHexLower &&
    ((cs.drop 20).take 12).all isHexLower &&
    (cs.getD 32 ' ' == '@')

/-- `excluded_domains` of `extract_emails`. -/
def excludedDomains : List String :=
  ["example.com", "domain.com", "yoursite.com", "yourdomain.com",
   "example.org", "email.com", "test.com", "sample.com"]

/-- `excluded_extensions` of `extract_emails`. -/
def excludedExtensions : List String :=
  [".png", ".jpg", ".jpeg", ".gif", ".webp", ".svg", ".css", ".js", ".pdf",
   ".doc", ".mp3", ".mp4"]

/-- `e_lower.split('@')[1]` — the domain part of an email candidate
(defined as `""` when the candidate has no `@`; the Python code only ever
applies it to regex matches, which contain exactly one `@`). -/
def domainPart (s : String) : String :=
  String.mk ((splitOnChar '@' s.toList).getD 1 [])

/-- `e_lower.split('@')[0]` — the local part of an email candidate. -/
def localPart (s : String) : String :=
  String.mk ((splitOnChar '@' s.toList).headD [])

/-- All the `continue` guards of the `for e in re.findall(...)` loop of
`extract_emails`, as one conjunction over the already lowercased candidate
`el`, in the source's order: no asset extension occurring as a substring
(`ext in e_lower`), no MD5/UUID hex local part, no placeholder domain, and
no low-distinct-character local part with length above 4. -/
def emailAccepted (el : String) : Bool :=
  !(excludedExtensions.any (fun ext => decide (List.IsInfix ext.toList el.toList))) &&
  !(md5LocalPattern el) &&
  !(uuidLocalPattern el) &&
  !(excludedDomains.any (fun d => domainPart el == d)) &&
  !(decide ((localPart el).toList.dedup.length ≤ 2) &&
    decide (4 < (localPart el).toList.length))

/-- The body of the `for e in re.findall(...)` loop of `extract_emails`:
lowercase the candidate; when none of the `continue` guards fires
(`emailAccepted`), add the lowercased candidate to the result set. -/
def emailStep (emails : List String) (e : String) : List String :=
  let el := strToLower e
  if emailAccepted el then insertNew emails el else emails

/-- `extract_emails` from `src/scraper/utils/extractors.py`, taken over the
list of candidates produced by `re.findall(email_pattern, text)` (the regex
scan itself is kept abstract: the function is the filtering fold over its
matches). -/
def extract_emails (candidates : List String) : List String :=
  candidates.foldl emailStep []

theorem mem_insertNew {l : List String} {x y : String} :
    y ∈ insertNew l x ↔ y ∈ l ∨ y = x := by
  unfold insertNew
  by_cases h : x ∈ l
  · simp only [if_pos h]
    constructor
    · exact fun hy => Or.inl hy
    · rintro (hy | rfl) <;> [exact hy; exact h]
  · simp [if_neg h]

theorem mem_foldl_emailStep (l : List String) (acc : List String) (y : String) :
    y ∈ l.foldl emailStep acc ↔
      y ∈ acc ∨ ∃ c ∈ l, y = strToLower c ∧ emailAccepted (strToLower c) = true := by
  induction l generalizing acc with
  | nil => simp
  | cons c l ih =>
    by_cases h : emailAccepted (strToLower c) = true <;>
      simp only [List.foldl_cons, emailStep, h, if_true, if_false, Bool.false_eq_true,
        ih, mem_insertNew, List.exists_mem_cons_iff] <;>
      simp [h] <;> tauto

/-- C5: every address returned by `extract_emails` is a (lowercased) regex
candidate, its domain part is none of the placeholder domains, its local
part is neither MD5-shaped nor UUID-shaped hex and does not have at most 2
distinct characters while being longer than 4 characters, the address does
not end in any of the binary/asset extensions, and in particular
`john.doe@example.com` is never returned, whatever the candidate list. -/
theorem extract_emails_excludes_noise (candidates : List String)
    (hat : ∀ c ∈ candidates, '@' ∈ c.toList) :
    (∀ e ∈ extract_emails candidates,
        (∃ c ∈ candidates, e = strToLower c) ∧
        domainPart e ∉ excludedDomains ∧
        md5LocalPattern e = false ∧
        uuidLocalPattern e = false ∧
        ¬((localPart e).toList.dedup.length ≤ 2 ∧ 4 < (localPart e).toList.length) ∧
        (∀ ext ∈ excludedExtensions, ¬ List.IsSuffix ext.toList e.toList)) ∧
    "john.doe@example.com" ∉ extract_emails candidates := by
  have main : ∀ e ∈ extract_emails candidates,
      (∃ c ∈ candidates, e = strToLower c) ∧ emailAccepted e = true := by
    intro e he
    rw [extract_emails, mem_foldl_emailStep] at he
    rcases he with he | ⟨c, hc, rfl, hacc⟩
    · simp at he
    · exact ⟨⟨c, hc, rfl⟩, hacc⟩
  constructor
  · intro e he
    obtain ⟨hcand, hacc⟩ := main e he
    rw [emailAccepted] at hacc
    simp only [Bool.and_eq_true, Bool.not_eq_true', List.any_eq_false,
      Bool.and_eq_false_iff, decide_eq_false_iff_not, decide_eq_true_eq] at hacc
    obtain ⟨⟨⟨⟨hext, hmd5⟩, huuid⟩, hdom⟩, hloc⟩ := hacc
    refine ⟨hcand, ?_, hmd5, huuid, ?_, ?_⟩
    · intro hmem
      have := hdom (domainPart e) hmem
      simp at this
    · rintro ⟨h1, h2⟩
      rcases hloc with h | h
      · exact absurd h1 h
      · exact absurd h2 h
    · intro ext hmem hsuf
      have := hext ext hmem
      exact absurd hsuf.isInfix this
  · intro hmem
    obtain ⟨-, hacc⟩ := main _ hmem
    rw [emailAccepted] at hacc
    simp only [Bool.and_eq_true, Bool.not_eq_true', List.any_eq_false] at hacc
    have := hacc.1.2 "example.com" (by decide)
    rw [show domainPart "john.doe@example.com" = "example.com" from rfl] at this
    simp at this

/-- Witness for `extract_emails_excludes_noise` at a concrete candidate
list containing the placeholder address and a genuine one. -/
theorem extract_emails_excludes_noise_witness :
    ((∀ e ∈ extract_emails ["John.Doe@example.com", "info@acme.io"],
        (∃ c ∈ ["John.Doe@example.com", "info@acme.io"], e = strToLower c) ∧
        domainPart e ∉ excludedDomains ∧
        md5LocalPattern e = false ∧
        uuidLocalPattern e = false ∧
        ¬((localPart e).toList.dedup.length ≤ 2 ∧ 4 < (localPart e).toList.length) ∧
        (∀ ext ∈ excludedExtensions, ¬ List.IsSuffix ext.toList e.toList)) ∧
      "john.doe@example.com" ∉ extract_emails ["John.Doe@example.com", "info@acme.io"]) ∧
    extract_emails ["John.Doe@example.com", "info@acme.io"] = ["info@acme.io"] :=
  ⟨extract_emails_excludes_noise ["John.Doe@example.com", "info@acme.io"]
    (by decide), by decide⟩

/-! ### Phone-number filtering (`filter_phone_numbers` in
`src/scraper/utils/extractors.py`) -/

/-- `''.join(filter(str.isdigit, s))`. -/
def keepDigits (l : List Char) : List Char :=
  l.filter Char.isDigit

/-- The cleaning step at the top of the `filter_phone_numbers` loop: a
double leading `+` collapses to one, a single leading `+` is kept, and all
non-digit characters of the remainder are dropped. -/
def cleanPhone (phone : String) : String :=
  match phone.toList with
  | '+' :: '+' :: rest => String.mk ('+' :: keepDigits rest)
  | '+' :: rest => String.mk ('+' :: keepDigits rest)
  | l => String.mk (keepDigits l)

/-- `^20\d{6}$` (first entry of `date_patterns`). -/
def datePattern1 (s : String) : Bool :=
  let cs := s.toList
  decide (cs.length = 8) && (cs.getD 0 ' ' == '2') && (cs.getD 1 ' ' == '0') &&
    (cs.drop 2).all Char.isDigit

/-- `^\d{8}$` (second entry of `date_patterns`). -/
def datePattern2 (s : String) : Bool :=
  let cs := s.toList
  decide (cs.length = 8) && cs.all Char.isDigit

/-- `^\d{6}$` (third entry of `date_patterns`). -/
def datePattern3 (s : String) : Bool :=
  let cs := s.toList
  decide (cs.length = 6) && cs.all Char.isDigit

/-- The regex group `(0[1-9]|1[0-2])` — a two-character month. -/
def monthChars (a b : Char) : Bool :=
  (a == '0' && b.isDigit && !(b == '0')) ||
  (a == '1' && (b == '0' || b == '1' || b == '2'))

/-- The regex group `(0[1-9]|[12][0-9]|3[01])` — a two-character day. -/
def dayChars (a b : Char) : Bool :=
  (a == '0' && b.isDigit && !(b == '0')) ||
  ((a == '1' || a == '2') && b.isDigit) ||
  (a == '3' && (b == '0' || b == '1'))

/-- `^20\d{2}(0[1-9]|1[0-2])(0[1-9]|[12][0-9]|3[01])$` (fourth entry of
`date_patterns`): a YYYYMMDD date in the 2000s. -/
def datePattern4 (s : String) : Bool :=
  let cs := s.toList
  decide (cs.length = 8) && (cs.getD 0 ' ' == '2') && (cs.getD 1 ' ' == '0') &&
    (cs.getD 2 ' ').isDigit && (cs.getD 3 ' ').isDigit &&
    monthChars (cs.getD 4 ' ') (cs.getD 5 ' ') &&
    dayChars (cs.getD 6 ' ') (cs.getD 7 ' ')

/-- `^(0[1-9]|1[0-2])(0[1-9]|[12][0-9]|3[01])20\d{2}$` (fifth entry of
`date_patterns`): an MMDDYYYY date in the 2000s. -/
def datePattern5 (s : String) : Bool :=
  let cs := s.toList
  decide (cs.length = 8) && monthChars (cs.getD 0 ' ') (cs.getD 1 ' ') &&
    dayChars (cs.getD 2 ' ') (cs.getD 3 ' ') && (cs.getD 4 ' ' == '2') &&
    (cs.getD 5 ' ' == '0') && (cs.getD 6 ' ').isDigit && (cs.getD 7 ' ').isDigit

/-- `^(19|20)\d{2}\d{4}$` (sixth entry of `date_patterns`). -/
def datePattern6 (s : String) : Bool :=
  let cs := s.toList
  decide (cs.length = 8) &&
    (((cs.getD 0 ' ' == '1') && (cs.getD 1 ' ' == '9')) ||
     ((cs.getD 0 ' ' == '2') && (cs.getD 1 ' ' == '0'))) &&
    (cs.drop 2).all Char.isDigit

/-- `any(re.match(pattern, cleaned) for pattern in date_patterns)`. -/
def isDateShaped (s : String) : Bool :=
  datePattern1 s || datePattern2 s || datePattern3 s || datePattern4 s ||
    datePattern5 s || datePattern6 s

/-- `^\d{1,3}(\.\d{1,3}){3}$` — the `ip_pattern` of `filter_phone_numbers`
(four dot-separated groups of one to three digits). -/
def ipPattern (s : String) : Bool :=
  let parts := splitOnChar '.' s.toList
  decide (parts.length = 4) &&
    parts.all (fun p =>
      decide (1 ≤ p.length) && decide (p.length ≤ 3) && p.all Char.isDigit)

/-- One step of the `sequential_pattern` loop: a digit in `0`–`8` whose
successor character is the next digit (the lookahead `d(?=d+1)`). -/
def ascPair (a b : Char) : Bool :=
  decide ('0' ≤ a) && decide (a ≤ '8') && (b.toNat == a.toNat + 1)

/-- `^(?:0(?=1)|1(?=2)|...|8(?=9)){5,}\d$` — the `sequential_pattern` of
`filter_phone_numbers`: at least six characters, every adjacent pair of
characters a consecutively ascending digit pair, and a final digit. -/
def seqPattern (s : String) : Bool :=
  let cs := s.toList
  decide (6 ≤ cs.length) && (cs.zip cs.tail).all (fun p => ascPair p.1 p.2) &&
    (cs.getLastD ' ').isDigit

/-- The Unix-timestamp rejection of `filter_phone_numbers`: a ten-character
cleaned value starting with `1` or `2` whose `int(...)` value lies in
`[1000000000, 9999999999]`. -/
def timestampExcluded (cleaned : String) : Bool :=
  let cs := cleaned.toList
  decide (cs.length = 10) && ((cs.headD ' ' == '1') || (cs.headD ' ' == '2')) &&
    (match parseDigits cs with
     | some t => decide (1000000000 ≤ t) && decide (t ≤ 9999999999)
     | none => false)

/-- `len(cleaned.replace('+', ''))` — the digit count of a cleaned number,
excluding `+` characters. -/
def phoneDigitCount (cleaned : String) : Nat :=
  (cleaned.toList.filter (fun c => !(c == '+'))).length

/-- The body of the `for phone in phone_numbers` loop of
`filter_phone_numbers`, with the `continue` guards in source order. -/
def phoneStep (acc : List String) (phone : String) : List String :=
  let cleaned := cleanPhone phone
  if isDateShaped cleaned then acc
  else if ipPattern phone then acc
  else if seqPattern cleaned then acc
  else if timestampExcluded cleaned then acc
  else if decide (8 ≤ phoneDigitCount cleaned ∧ phoneDigitCount cleaned ≤ 15) then
    insertNew acc cleaned
  else acc

/-- `filter_phone_numbers` from `src/scraper/utils/extractors.py` (the
input set is modelled as a list; the result set as a duplicate-free list). -/
def filter_phone_numbers (numbers : List String) : List String :=
  numbers.foldl phoneStep []

/-- All guards of the `filter_phone_numbers` loop body passed. -/
def phoneAccepted (phone : String) : Bool :=
  let cleaned := cleanPhone phone
  !(isDateShaped cleaned) && !(ipPattern phone) && !(seqPattern cleaned) &&
    !(timestampExcluded cleaned) &&
    decide (8 ≤ phoneDigitCount cleaned ∧ phoneDigitCount cleaned ≤ 15)

theorem phoneStep_eq (acc : List String) (phone : String) :
    phoneStep acc phone =
      if phoneAccepted phone then insertNew acc (cleanPhone phone) else acc := by
  unfold phoneStep phoneAccepted
  by_cases h1 : isDateShaped (cleanPhone phone) <;>
    by_cases h2 : ipPattern phone <;>
    by_cases h3 : seqPattern (cleanPhone phone) <;>
    by_cases h4 : timestampExcluded (cleanPhone phone) <;>
    by_cases h5 : 8 ≤ phoneDigitCount (cleanPhone phone) ∧
      phoneDigitCount (cleanPhone phone) ≤ 15 <;>
    simp [h1, h2, h3, h4, h5]

theorem mem_foldl_phoneStep (l : List String) (acc : List String) (y : String) :
    y ∈ l.foldl phoneStep acc ↔
      y ∈ acc ∨ ∃ p ∈ l, y = cleanPhone p ∧ phoneAccepted p = true := by
  induction l generalizing acc with
  | nil => simp
  | cons p l ih =>
    by_cases h : phoneAccepted p = true <;>
      simp only [List.foldl_cons, phoneStep_eq, h, if_true, if_false, Bool.false_eq_true,
        ih, mem_insertNew, List.exists_mem_cons_iff] <;>
      simp [h] <;> tauto

/-- C6: every number kept by `filter_phone_numbers` is the cleaned form of
an input whose cleaned form is not date-shaped, whose raw form is not
IPv4-shaped, whose cleaned form is neither an ascending-digit sequence nor
a plausible ten-digit Unix timestamp, and whose digit count excluding a
leading `+` lies in `[8, 15]`; in particular `{"20230615"}` filters to the
empty set, while `"+14155552671"` is retained. -/
theorem filter_phone_numbers_rejects_noise :
    (∀ numbers : List String, ∀ y ∈ filter_phone_numbers numbers,
      ∃ p ∈ numbers, y = cleanPhone p ∧ isDateShaped y = false ∧
        ipPattern p = false ∧ seqPattern y = false ∧ timestampExcluded y = false ∧
        8 ≤ phoneDigitCount y ∧ phoneDigitCount y ≤ 15) ∧
    filter_phone_numbers ["20230615"] = [] ∧
    "+14155552671" ∈ filter_phone_numbers ["+14155552671"] := by
  refine ⟨?_, by decide, by decide⟩
  intro numbers y hy
  rw [filter_phone_numbers, mem_foldl_phoneStep] at hy
  rcases hy with hy | ⟨p, hp, rfl, hacc⟩
  · simp at hy
  · rw [phoneAccepted] at hacc
    simp only [Bool.and_eq_true, Bool.not_eq_true', decide_eq_true_eq] at hacc
    obtain ⟨⟨⟨⟨hdate, hip⟩, hseq⟩, hts⟩, hlo, hhi⟩ := hacc
    exact ⟨p, hp, rfl, hdate, hip, hseq, hts, hlo, hhi⟩

/-- Witness for `filter_phone_numbers_rejects_noise` at a concrete retained
number. -/
theorem filter_phone_numbers_rejects_noise_witness :
    ∃ p ∈ ["+14155552671"], "+14155552671" = cleanPhone p ∧
      isDateShaped "+14155552671" = false ∧ ipPattern p = false ∧
      seqPattern "+14155552671" = false ∧ timestampExcluded "+14155552671" = false ∧
      8 ≤ phoneDigitCount "+14155552671" ∧ phoneDigitCount "+14155552671" ≤ 15 :=
  filter_phone_numbers_rejects_noise.1 ["+14155552671"] "+14155552671" (by decide)

theorem cleanPhone_shape (p : String) :
    ∃ ds : List Char, ds.all Char.isDigit = true ∧
      ((cleanPhone p).toList = ds ∨ (cleanPhone p).toList = '+' :: ds) := by
  have hall : ∀ l : List Char, (keepDigits l).all Char.isDigit = true := by
    intro l
    simp only [keepDigits, List.all_eq_true]
    intro c hc
    exact (List.mem_filter.mp hc).2
  unfold cleanPhone
  split
  · exact ⟨_, hall _, Or.inr rfl⟩
  · exact ⟨_, hall _, Or.inr rfl⟩
  · exact ⟨_, hall _, Or.inl rfl⟩

/-- C10 (implicit): every string returned by `filter_phone_numbers` is the
cleaned form of some input — an optional single leading `+` followed only
by decimal digits — so an output element need not be an element of the
input set, as the concrete instance shows. -/
theorem filter_phone_numbers_output_is_cleaned :
    (∀ numbers : List String, ∀ y ∈ filter_phone_numbers numbers,
      (∃ p ∈ numbers, y = cleanPhone p) ∧
      ∃ ds : List Char, ds.all Char.isDigit = true ∧
        (y.toList = ds ∨ y.toList = '+' :: ds)) ∧
    "+14155552671" ∈ filter_phone_numbers ["+1 415-555-2671"] ∧
    "+14155552671" ∉ ["+1 415-555-2671"] := by
  refine ⟨?_, by decide, by decide⟩
  intro numbers y hy
  rw [filter_phone_numbers, mem_foldl_phoneStep] at hy
  rcases hy with hy | ⟨p, hp, rfl, -⟩
  · simp at hy
  · exact ⟨⟨p, hp, rfl⟩, cleanPhone_shape p⟩

/-- Witness for `filter_phone_numbers_output_is_cleaned` at a concrete
input containing formatting characters. -/
theorem filter_phone_numbers_output_is_cleaned_witness :
    (∃ p ∈ ["+1 415-555-2671"], "+14155552671" = cleanPhone p) ∧
    ∃ ds : List Char, ds.all Char.isDigit = true ∧
      ("+14155552671".toList = ds ∨ "+14155552671".toList = '+' :: ds) :=
  filter_phone_numbers_output_is_cleaned.1 ["+1 415-555-2671"] "+14155552671"
    (by decide)

/-! ### Robots compliance (`src/scraper/utils/robots_parser.py`) -/

/-- `RobotsRule` from `src/scraper/utils/robots_parser.py`. -/
structure RobotsRule where
  path : String
  allow : Bool := false
  is_sensitive : Bool := false
deriving DecidableEq

/-- The length-descending relation used by
`sorted(rules, key=lambda x: len(x.path), reverse=True)`. -/
def ruleLonger (a b : RobotsRule) : Prop :=
  b.path.length ≤ a.path.length

instance : DecidableRel ruleLonger :=
  fun a b => Nat.decLe b.path.length a.path.length

instance : IsTotal RobotsRule ruleLonger :=
  ⟨fun a b => Nat.le_total b.path.length a.path.length⟩

instance : IsTrans RobotsRule ruleLonger :=
  ⟨fun _ _ _ h1 h2 => Nat.le_trans h2 h1⟩

/-- `sorted(rules, key=lambda x: len(x.path), reverse=True)`: a stable sort
by descending path length (insertion sort inserts each rule before exactly
the equal-length rules that followed it, which is Python's stable order). -/
def sortRulesByPathLength (rules : List RobotsRule) : List RobotsRule :=
  rules.insertionSort ruleLonger

/-- The `if not path: path = "/"` normalization at the top of
`RobotsParser.is_allowed` (applied to `urlparse(url).path`). -/
def normPath (p : String) : String :=
  if p = "" then "/" else p

/-- `RobotsParser.is_allowed` from `src/scraper/utils/robots_parser.py`,
over the already-extracted URL path: sort the rules by descending path
length and return the allow flag of the first rule whose path is a prefix
of the URL path, defaulting to allow. -/
def is_allowed (urlPath : String) (rules : List RobotsRule) : Bool :=
  let path := normPath urlPath
  match (sortRulesByPathLength rules).find?
      (fun r => decide (List.IsPrefix r.path.toList path.toList)) with
  | some r => r.allow
  | none => true

theorem find?_pairwise_longest (p : RobotsRule → Bool) :
    ∀ l : List RobotsRule, List.Pairwise ruleLonger l →
      ∀ x, l.find? p = some x →
        x ∈ l ∧ p x = true ∧
          ∀ y ∈ l, p y = true → y.path.length ≤ x.path.length := by
  intro l
  induction l with
  | nil => intro _ x hx; simp at hx
  | cons a l ih =>
    intro hpw x hx
    rw [List.find?_cons] at hx
    rcases hpa : p a with _ | _
    · rw [hpa] at hx
      have hrec := ih (List.Pairwise.tail hpw) x hx
      refine ⟨List.mem_cons_of_mem a hrec.1, hrec.2.1, ?_⟩
      intro y hy hpy
      rcases List.mem_cons.mp hy with rfl | hy
      · rw [hpy] at hpa; exact absurd hpa (by simp)
      · exact hrec.2.2 y hy hpy
    · rw [hpa] at hx
      cases hx
      refine ⟨List.mem_cons_self a l, hpa, ?_⟩
      intro y hy _
      rcases List.mem_cons.mp hy with rfl | hy
      · exact Nat.le_refl _
      · exact (List.pairwise_cons.mp hpw).1 y hy

/-- C7: `is_allowed` returns the allow flag of a matching rule whose path
length is maximal among the rules whose path is a prefix of the (normalised)
URL path, and returns allow (`true`) when no rule's path matches. -/
theorem is_allowed_longest_match (urlPath : String) (rules : List RobotsRule) :
    ((∃ r ∈ rules, List.IsPrefix r.path.toList (normPath urlPath).toList) →
      ∃ r ∈ rules, List.IsPrefix r.path.toList (normPath urlPath).toList ∧
        is_allowed urlPath rules = r.allow ∧
        ∀ r2 ∈ rules, List.IsPrefix r2.path.toList (normPath urlPath).toList →
          r2.path.length ≤ r.path.length) ∧
    ((∀ r ∈ rules, ¬ List.IsPrefix r.path.toList (normPath urlPath).toList) →
      is_allowed urlPath rules = true) := by
  have hperm := List.perm_insertionSort ruleLonger rules
  have hsorted : List.Pairwise ruleLonger (sortRulesByPathLength rules) :=
    List.sorted_insertionSort ruleLonger rules
  rcases hfind : (sortRulesByPathLength rules).find?
      (fun r => decide (List.IsPrefix r.path.toList (normPath urlPath).toList)) with
      _ | x
  · constructor
    · rintro ⟨r, hr, hpre⟩
      have hnone := List.find?_eq_none.mp hfind r (hperm.mem_iff.mpr hr)
      simp only [decide_eq_true_eq] at hnone
      exact absurd hpre hnone
    · intro _
      rw [is_allowed]
      simp only [hfind]
  · have hmax := find?_pairwise_longest _ (sortRulesByPathLength rules) hsorted x hfind
    constructor
    · intro _
      refine ⟨x, hperm.mem_iff.mp hmax.1, ?_, ?_, ?_⟩
      · exact of_decide_eq_true hmax.2.1
      · rw [is_allowed]; simp only [hfind]
      · intro r2 hr2 hpre
        exact hmax.2.2 r2 (hperm.mem_iff.mpr hr2) (decide_eq_true hpre)
    · intro hnone
      have := hnone x (hperm.mem_iff.mp hmax.1)
      exact absurd (of_decide_eq_true hmax.2.1) this

/-- Witness for `is_allowed_longest_match`: with rules `/a` (allow) and
`/admin` (disallow), the path `/admin/x` resolves to the longer `/admin`
rule and is denied; with only a `/priv` rule, `/pub` defaults to allow. -/
theorem is_allowed_longest_match_witness :
    (∃ r ∈ [RobotsRule.mk "/a" true false, RobotsRule.mk "/admin" false false],
      List.IsPrefix r.path.toList (normPath "/admin/x").toList ∧
      is_allowed "/admin/x"
        [RobotsRule.mk "/a" true false, RobotsRule.mk "/admin" false false] = r.allow ∧
      ∀ r2 ∈ [RobotsRule.mk "/a" true false, RobotsRule.mk "/admin" false false],
        List.IsPrefix r2.path.toList (normPath "/admin/x").toList →
          r2.path.length ≤ r.path.length) ∧
    is_allowed "/pub" [RobotsRule.mk "/priv" false false] = true :=
  ⟨(is_allowed_longest_match "/admin/x"
      [RobotsRule.mk "/a" true false, RobotsRule.mk "/admin" false false]).1
      ⟨RobotsRule.mk "/admin" false false, by decide, by decide⟩,
   (is_allowed_longest_match "/pub" [RobotsRule.mk "/priv" false false]).2
      (by decide)⟩

/-! ### Fetch layer (`src/scraper/fetcher.py`) -/

/-- A Python exception crossing the network call of the fetch loop:
`requests.RequestException` (the class of network/timeout failures, the
only class the loop's `except` clause catches) or any other exception. -/
inductive PyExc where
  | requestExc (msg : String)
  | otherExc (msg : String)
deriving DecidableEq

/-- `FetchResponse` from `src/scraper/fetcher.py` (headers as a key-value
list; the byte content as decoded text, `none` when unavailable). -/
structure FetchResponse where
  status_code : Nat
  content : Option String
  headers : List (String × String)
  url : String
  encoding : Option String
deriving DecidableEq

/-- The I/O environment of one `WebFetcher` call: whether a cache directory
was configured, the disk cache contents (text by URL, `none` when the file
is absent), the outcome of the k-th network attempt (`_safe_get` is
imported from `scraper.utils.clients`; its definition is not among the
sources, so each attempt is an oracle value), and the `random.uniform(2, 5)`
draws. -/
structure FetchEnv where
  cache_enabled : Bool
  cache : String → Option String
  net : Nat → Except PyExc FetchResponse
  rand : Nat → ℚ

/-- The I/O a call actually performed: network requests issued, cache files
read, cache files written. -/
structure FetchTrace where
  netAttempts : Nat
  cacheReads : Nat
  cacheWrites : Nat
deriving DecidableEq

/-- `WebFetcher._check_cache`: when the cache is enabled, read and return
the cached text for the URL (this helper exists in the source but is never
invoked by `fetch` or `fetch_full_response`). -/
def check_cache (env : FetchEnv) (url : String) : Option String × FetchTrace :=
  if env.cache_enabled then (env.cache url, ⟨0, 1, 0⟩) else (none, ⟨0, 0, 0⟩)

/-- `WebFetcher._save_to_cache`: when the cache is enabled, write the text
for the URL (also never invoked by `fetch` or `fetch_full_response`). -/
def save_to_cache (env : FetchEnv) (_url _content : String) : Bool × FetchTrace :=
  if env.cache_enabled then (true, ⟨0, 0, 1⟩) else (false, ⟨0, 0, 0⟩)

/-- The `while attempt < retries` loop of `WebFetcher.fetch_full_response`,
with `remaining = retries - attempt` as fuel: each attempt either returns
the response, propagates a non-`RequestException` error, or (on a
`RequestException`) sleeps `random.uniform(2, 5) * attempt` before the next
attempt when one is left.  Returns the outcome, the backoff sleeps
performed, and the number of attempts issued. -/
def fetchLoop (net : Nat → Except PyExc FetchResponse) (rand : Nat → ℚ) :
    (attempt : Nat) → (remaining : Nat) →
      Except PyExc (Option FetchResponse) × List ℚ × Nat
  | _, 0 => (.ok none, [], 0)
  | attempt, remaining + 1 =>
    match net attempt with
    | .ok r => (.ok (some r), [], 1)
    | .error (.otherExc m) => (.error (.otherExc m), [], 1)
    | .error (.requestExc _) =>
      match remaining with
      | 0 => (.ok none, [], 1)
      | r2 + 1 =>
        let k := fetchLoop net rand (attempt + 1) (r2 + 1)
        (k.1, (rand (attempt + 1) * ((attempt + 1 : Nat) : ℚ)) :: k.2.1, k.2.2 + 1)

/-- `WebFetcher.fetch_full_response` from `src/scraper/fetcher.py`: run the
attempt loop from attempt 0 (cache and `force_download` play no role in the
source's body). -/
def fetch_full_response (env : FetchEnv) (_url : String) (_force_download : Bool)
    (retries : Nat) : Except PyExc (Option FetchResponse) × List ℚ × Nat :=
  fetchLoop env.net env.rand 0 retries

/-- `WebFetcher.fetch` from `src/scraper/fetcher.py`: delegate to
`fetch_full_response` and decode the content when the response and its
content are truthy (`decode(..., errors='replace')` cannot fail, so the
decoded text is the content itself).  The trace records the I/O performed:
the loop's network attempts and no cache reads or writes. -/
def fetch (env : FetchEnv) (url : String) (force_download : Bool)
    (retries : Nat) : Except PyExc (Option String) × FetchTrace :=
  let r := fetch_full_response env url force_download retries
  let trace : FetchTrace := ⟨r.2.2, 0, 0⟩
  match r.1 with
  | .error e => (.error e, trace)
  | .ok none => (.ok none, trace)
  | .ok (some resp) =>
    match resp.content with
    | none => (.ok none, trace)
    | some "" => (.ok none, trace)
    | some c => (.ok (some c), trace)

/-- An environment whose cache already holds `http://cached.example` and
whose network returns a live body on every attempt. -/
def cachedEnv : FetchEnv :=
  ⟨true,
   fun u => if u = "http://cached.example" then some "CACHED" else none,
   fun _ => .ok ⟨200, some "LIVE", [], "http://cached.example", some "utf-8"⟩,
   fun _ => 3⟩

/-- C1: the disk cache is dead code in the fetcher — for a URL that is
present in the cache, `fetch` with `force_download = False` still issues a
network request, performs no cache read and no cache write, and returns the
live body rather than the cached one (`_check_cache` would have returned
the cached text).  This contradicts the claim, the spec, and the fetcher's
own docstrings, which all describe a consulted, written-through cache. -/
theorem fetch_ignores_cache :
    check_cache cachedEnv "http://cached.example" = (some "CACHED", ⟨0, 1, 0⟩) ∧
    fetch cachedEnv "http://cached.example" false 3 = (.ok (some "LIVE"), ⟨1, 0, 0⟩) := by
  constructor <;> rfl

theorem fetchLoop_all_fail (net : Nat → Except PyExc FetchResponse)
    (rand : Nat → ℚ) (hfail : ∀ k, ∃ m, net k = .error (.requestExc m)) :
    ∀ remaining attempt,
      fetchLoop net rand attempt remaining =
        (.ok none,
         (List.range (remaining - 1)).map
           (fun i => rand (attempt + i + 1) * ((attempt + i + 1 : Nat) : ℚ)),
         remaining) := by
  intro remaining
  induction remaining with
  | zero => intro attempt; rfl
  | succ r2 ih =>
    intro attempt
    obtain ⟨m, hm⟩ := hfail attempt
    cases r2 with
    | zero => simp [fetchLoop, hm]
    | succ r3 =>
      rw [fetchLoop, hm]
      simp only [ih (attempt + 1)]
      refine congrArg (Prod.mk _) (congrArg₂ Prod.mk ?_ (by omega))
      rw [Nat.succ_sub_one, Nat.succ_sub_one, List.range_succ_eq_map,
        List.map_cons, List.map_map]
      refine congrArg₂ List.cons (by norm_num) (List.map_congr_left ?_)
      intro i _
      have h1 : attempt + 1 + i + 1 = attempt + (i + 1) + 1 := by omega
      simp [Function.comp, h1]

/-- C4: when every attempt fails with a network/timeout failure
(`requests.RequestException`, the only failure kind the modelled
`_safe_get` raises) and the uniform draws lie in `[2, 5]`, the fetch loop
issues exactly `retries` attempts, sleeps `uniform(2,5) * attempt-number`
between consecutive attempts, and after exhaustion returns absent
(`.ok none`) — no exception reaches the caller. -/
theorem fetch_full_response_retry_exhaustion (env : FetchEnv) (url : String)
    (force_download : Bool) (retries : Nat)
    (hfail : ∀ k, ∃ m, env.net k = .error (.requestExc m))
    (hrand : ∀ k, 2 ≤ env.rand k ∧ env.rand k ≤ 5) :
    (fetch_full_response env url force_download retries).1 = .ok none ∧
    (fetch_full_response env url force_download retries).2.2 = retries ∧
    (fetch_full_response env url force_download retries).2.1 =
      (List.range (retries - 1)).map
        (fun i => env.rand (i + 1) * ((i + 1 : Nat) : ℚ)) ∧
    ∀ s ∈ (fetch_full_response env url force_download retries).2.1,
      ∃ k : Nat, 1 ≤ k ∧ s = env.rand k * (k : ℚ) ∧
        2 * (k : ℚ) ≤ s ∧ s ≤ 5 * (k : ℚ) := by
  have hloop := fetchLoop_all_fail env.net env.rand hfail retries 0
  rw [fetch_full_response]
  rw [hloop]
  refine ⟨rfl, rfl, by simp, ?_⟩
  intro s hs
  simp only [List.mem_map, List.mem_range] at hs
  obtain ⟨i, -, rfl⟩ := hs
  refine ⟨i + 1, by omega, by norm_num, ?_, ?_⟩
  · have h2 := (hrand (i + 1)).1
    have hpos : (0 : ℚ) ≤ ((i + 1 : Nat) : ℚ) := by positivity
    calc 2 * ((i + 1 : Nat) : ℚ) ≤ env.rand (i + 1) * ((i + 1 : Nat) : ℚ) :=
          mul_le_mul_of_nonneg_right h2 hpos
      _ = env.rand (0 + i + 1) * ((0 + i + 1 : Nat) : ℚ) := by norm_num
  · have h5 := (hrand (i + 1)).2
    have hpos : (0 : ℚ) ≤ ((i + 1 : Nat) : ℚ) := by positivity
    calc env.rand (0 + i + 1) * ((0 + i + 1 : Nat) : ℚ)
        = env.rand (i + 1) * ((i + 1 : Nat) : ℚ) := by norm_num
      _ ≤ 5 * ((i + 1 : Nat) : ℚ) := mul_le_mul_of_nonneg_right h5 hpos

/-- The environment in which every network attempt times out. -/
def allFailEnv : FetchEnv :=
  ⟨false, fun _ => none, fun _ => .error (.requestExc "timeout"), fun _ => 3⟩

/-- Witness for `fetch_full_response_retry_exhaustion` with three attempts
that all time out. -/
theorem fetch_full_response_retry_exhaustion_witness :
    (fetch_full_response allFailEnv "http://x" false 3).1 = .ok none ∧
    (fetch_full_response allFailEnv "http://x" false 3).2.2 = 3 ∧
    (fetch_full_response allFailEnv "http://x" false 3).2.1 =
      (List.range 2).map (fun i => allFailEnv.rand (i + 1) * ((i + 1 : Nat) : ℚ)) ∧
    ∀ s ∈ (fetch_full_response allFailEnv "http://x" false 3).2.1,
      ∃ k : Nat, 1 ≤ k ∧ s = allFailEnv.rand k * (k : ℚ) ∧
        2 * (k : ℚ) ≤ s ∧ s ≤ 5 * (k : ℚ) :=
  fetch_full_response_retry_exhaustion allFailEnv "http://x" false 3
    (fun _ => ⟨"timeout", rfl⟩) (fun _ => by constructor <;> norm_num [allFailEnv])

/-- The default `delay_range` of `WebFetcher.__init__`: `(1.0, 3.0)`. -/
def defaultDelayRange : ℚ × ℚ := (1, 3)

/-- `WebFetcher._respect_politeness`, as the new `last_request_time` it
records: `now` is the first `time.time()` reading; when less than
`min_delay` has elapsed since `last`, `time.sleep` blocks for the remainder
(plus a nonnegative sleep/readout overshoot `slack`); the second
`time.time()` reading becomes the new `last_request_time`. -/
def respect_politeness (minDelay last now slack : ℚ) : ℚ :=
  if now - last < minDelay then now + (minDelay - (now - last)) + slack
  else now + slack

/-- C9: with the default delay range, the `last_request_time` recorded for
a call is never less than `min_delay = 1.0` after the previous recorded
request time, whatever the current clock reading: a call issued sooner
blocks (sleeps) until the minimum delay has elapsed. -/
theorem respect_politeness_min_interval (t1 now2 slack : ℚ) (hs : 0 ≤ slack) :
    t1 + defaultDelayRange.1 ≤ respect_politeness defaultDelayRange.1 t1 now2 slack := by
  rw [respect_politeness, defaultDelayRange]
  split <;> simp_all <;> linarith

/-- Witness for `respect_politeness_min_interval`: a second call arriving
half a second after the first is pushed to a full second later. -/
theorem respect_politeness_min_interval_witness :
    (0 : ℚ) + defaultDelayRange.1 ≤
      respect_politeness defaultDelayRange.1 0 (1 / 2) 0 :=
  respect_politeness_min_interval 0 (1 / 2) 0 (by norm_num)

/-! ### Entity resolution and profile store
(`src/scraper/extractors/osint_extractor.py`).

The SQL schema module (`db/schema.py`) is imported by `DatabaseManager`
but is not among the sources under review, so the two uniqueness
constraints the statements rely on are modelled from the spec (§3/§6). -/

/-- A row of the `entities` table: `(id, type, name, domain)`. -/
structure Entity where
  id : Nat
  type : String
  name : String
  domain : Option String
deriving DecidableEq

/-- Modelled from the spec: `db/schema.py` is missing from the sources;
§6 declares `entities(...)` *unique on (name, kind, domain)*, so two rows
conflict exactly when this key coincides. -/
def entityKey (r : Entity) : String × String × Option String :=
  (r.name, r.type, r.domain)

/-- SQLite's `lastrowid` for a fresh insert: one more than the largest id
in the table. -/
def nextEntityId (tbl : List Entity) : Nat :=
  (tbl.map Entity.id).foldr max 0 + 1

/-- Python truthiness of an optional string (`None` and `""` are falsy). -/
def truthyOpt : Option String → Bool
  | none => false
  | some s => !(s == "")

/-- The `SELECT` used by `_get_or_create_entity` when the `INSERT OR
IGNORE` was ignored: by `(name, type, domain)` for a company with a truthy
domain, by `(name, type, domain IS NULL)` for a person without one, and the
generic `(name, type)` lookup otherwise.  `fetchone` returns the first
matching row in table order. -/
def selectEntity (tbl : List Entity) (identifier db_entity_type : String)
    (domain_value : Option String) : Option Entity :=
  if db_entity_type = "company" ∧ truthyOpt domain_value = true then
    tbl.find? (fun r =>
      decide (r.name = identifier ∧ r.type = db_entity_type ∧ r.domain = domain_value))
  else if db_entity_type = "person" ∧ domain_value = none then
    tbl.find? (fun r =>
      decide (r.name = identifier ∧ r.type = db_entity_type ∧ r.domain = none))
  else
    tbl.find? (fun r => decide (r.name = identifier ∧ r.type = db_entity_type))

/-- The transaction body of `OSINTExtractor._get_or_create_entity` after
the `db_entity_type` / `domain_value` mapping: `INSERT OR IGNORE` the row
(a conflict is a row with the same spec-modelled `entityKey`; `rowcount >
0` means the insert happened and `lastrowid` is returned); when the insert
was ignored, recover the id via `selectEntity`; the `ValueError` raised
when the ignored row cannot be found is the `.error` case. -/
def get_or_create_core (tbl : List Entity) (identifier db_entity_type : String)
    (domain_value : Option String) : Except String Nat × List Entity :=
  if tbl.any (fun r => decide (entityKey r = (identifier, db_entity_type, domain_value))) then
    match selectEntity tbl identifier db_entity_type domain_value with
    | some r => (.ok r.id, tbl)
    | none => (.error "entity exists (was ignored) but its ID could not be retrieved", tbl)
  else
    (.ok (nextEntityId tbl),
     tbl ++ [⟨nextEntityId tbl, db_entity_type, identifier, domain_value⟩])

/--  `OSINTExtractor._get_or_create_entity`: map `domain` → `company` (and
keep the identifier as the domain) and every other type → `person` (no
domain), then run the transaction body. -/
def get_or_create_entity (tbl : List Entity) (identifier entity_type : String) :
    Except String Nat × List Entity :=
  get_or_create_core tbl identifier
    (if entity_type = "domain" then "company" else "person")
    (if entity_type = "domain" then some identifier else none)

/-- Invariants of the `entities` table: the spec-modelled uniqueness of
`(name, type, domain)`, and — true of every row the sole writer
`_get_or_create_entity` creates — a company row's domain equals its name
and a person row has no domain. -/
def EntitiesWf (tbl : List Entity) : Prop :=
  tbl.Pairwise (fun a b => entityKey a ≠ entityKey b) ∧
  (∀ r ∈ tbl, r.type = "company" → r.domain = some r.name)


theorem selectEntity_finds_key (tbl : List Entity) (identifier : String)
    (db_entity_type : String) (domain_value : Option String)
    (hcase : (db_entity_type = "company" ∧ domain_value = some identifier) ∨
             (db_entity_type = "person" ∧ domain_value = none))
    (hwfb : ∀ r ∈ tbl, r.type = "company" → r.domain = some r.name)
    (hex : ∃ r ∈ tbl, entityKey r = (identifier, db_entity_type, domain_value)) :
    ∃ r, selectEntity tbl identifier db_entity_type domain_value = some r ∧
      r ∈ tbl ∧ entityKey r = (identifier, db_entity_type, domain_value) := by
  obtain ⟨r0, hr0, hkey0⟩ := hex
  rw [entityKey, Prod.mk.injEq, Prod.mk.injEq] at hkey0
  obtain ⟨hn0, ht0, hd0⟩ := hkey0
  rcases hcase with ⟨hcomp, hdv⟩ | ⟨hpers, hdv⟩
  · by_cases hid : identifier = ""
    · have hbranch1 : ¬(db_entity_type = "company" ∧ truthyOpt domain_value = true) := by
        rintro ⟨-, htr⟩
        rw [hdv, hid] at htr
        simp [truthyOpt] at htr
      have hbranch2 : ¬(db_entity_type = "person" ∧ domain_value = none) := by
        rintro ⟨hp, -⟩
        rw [hcomp] at hp
        exact absurd hp (by decide)
      rw [selectEntity, if_neg hbranch1, if_neg hbranch2]
      rcases hfind : tbl.find?
          (fun r => decide (r.name = identifier ∧ r.type = db_entity_type)) with _ | r1
      · exact absurd (List.find?_eq_none.mp hfind r0 hr0 (by simp [hn0, ht0]))
          (by simp)
      · have h1 := List.find?_some hfind
        simp only [decide_eq_true_eq] at h1
        have hmem := List.mem_of_find?_eq_some hfind
        have hdom1 : r1.domain = some r1.name :=
          hwfb r1 hmem (by rw [h1.2, hcomp])
        refine ⟨r1, hfind, hmem, ?_⟩
        rw [entityKey, h1.1, h1.2, hdom1, h1.1, hdv]
    · have hbranch1 : db_entity_type = "company" ∧ truthyOpt domain_value = true := by
        refine ⟨hcomp, ?_⟩
        rw [hdv]
        simpa [truthyOpt] using hid
      rw [selectEntity, if_pos hbranch1]
      rcases hfind : tbl.find? (fun r =>
          decide (r.name = identifier ∧ r.type = db_entity_type ∧
            r.domain = domain_value)) with _ | r1
      · exact absurd (List.find?_eq_none.mp hfind r0 hr0 (by simp [hn0, ht0, hd0]))
          (by simp)
      · have h1 := List.find?_some hfind
        simp only [decide_eq_true_eq] at h1
        exact ⟨r1, hfind, List.mem_of_find?_eq_some hfind,
          by rw [entityKey, h1.1, h1.2.1, h1.2.2]⟩
  · have hbranch1 : ¬(db_entity_type = "company" ∧ truthyOpt domain_value = true) := by
      rintro ⟨hc, -⟩
      rw [hpers] at hc
      exact absurd hc (by decide)
    rw [selectEntity, if_neg hbranch1, if_pos ⟨hpers, hdv⟩]
    rcases hfind : tbl.find? (fun r =>
        decide (r.name = identifier ∧ r.type = db_entity_type ∧
          r.domain = none)) with _ | r1
    · refine absurd (List.find?_eq_none.mp hfind r0 hr0 ?_) (by simp)
      rw [hdv] at hd0
      simp [hn0, ht0, hd0]
    · have h1 := List.find?_some hfind
      simp only [decide_eq_true_eq] at h1
      refine ⟨r1, hfind, List.mem_of_find?_eq_some hfind, ?_⟩
      rw [entityKey, h1.1, h1.2.1, h1.2.2, hdv]

theorem get_or_create_core_idempotent (tbl : List Entity) (identifier : String)
    (dbt : String) (dv : Option String)
    (hcase : (dbt = "company" ∧ dv = some identifier) ∨ (dbt = "person" ∧ dv = none))
    (hwf : EntitiesWf tbl) :
    ∃ eid : Nat,
      (get_or_create_core tbl identifier dbt dv).1 = .ok eid ∧
      (get_or_create_core (get_or_create_core tbl identifier dbt dv).2
        identifier dbt dv).1 = .ok eid ∧
      (get_or_create_core (get_or_create_core tbl identifier dbt dv).2
        identifier dbt dv).2 = (get_or_create_core tbl identifier dbt dv).2 := by
  obtain ⟨hwfa, hwfb⟩ := hwf
  by_cases hany : tbl.any (fun r => decide (entityKey r = (identifier, dbt, dv))) = true
  · have hex : ∃ r ∈ tbl, entityKey r = (identifier, dbt, dv) := by
      obtain ⟨r, hr, hp⟩ := List.any_eq_true.mp hany
      exact ⟨r, hr, of_decide_eq_true hp⟩
    obtain ⟨r, hsel, hmem, hkey⟩ :=
      selectEntity_finds_key tbl identifier dbt dv hcase hwfb hex
    have hcall : get_or_create_core tbl identifier dbt dv = (.ok r.id, tbl) := by
      rw [get_or_create_core, if_pos hany, hsel]
    refine ⟨r.id, by rw [hcall], ?_, ?_⟩ <;> simp only [hcall] <;> rw [hcall]
  · have hnone : ∀ r ∈ tbl, entityKey r ≠ (identifier, dbt, dv) := by
      intro r hr
      have := List.any_eq_false.mp (Bool.eq_false_iff.mpr hany) r hr
      simpa using this
    have hcall1 : get_or_create_core tbl identifier dbt dv =
        (.ok (nextEntityId tbl),
         tbl ++ [⟨nextEntityId tbl, dbt, identifier, dv⟩]) := by
      rw [get_or_create_core, if_neg (by simpa using hany)]
    set newRow : Entity := ⟨nextEntityId tbl, dbt, identifier, dv⟩ with hnewRow
    have hkeyNew : entityKey newRow = (identifier, dbt, dv) := rfl
    have hwfb2 : ∀ r ∈ tbl ++ [newRow], r.type = "company" → r.domain = some r.name := by
      intro r hr hcomp
      rcases List.mem_append.mp hr with hr | hr
      · exact hwfb r hr hcomp
      · rcases List.mem_singleton.mp hr with rfl
        rcases hcase with ⟨h1, h2⟩ | ⟨h1, h2⟩
        · rw [hnewRow]
          simpa using h2
        · rw [hnewRow] at hcomp
          simp only at hcomp
          rw [h1] at hcomp
          exact absurd hcomp (by decide)
    have hany2 : (tbl ++ [newRow]).any
        (fun r => decide (entityKey r = (identifier, dbt, dv))) = true := by
      rw [List.any_eq_true]
      exact ⟨newRow, List.mem_append_right tbl (List.mem_singleton_self newRow),
        decide_eq_true hkeyNew⟩
    have hex2 : ∃ r ∈ tbl ++ [newRow], entityKey r = (identifier, dbt, dv) :=
      ⟨newRow, List.mem_append_right tbl (List.mem_singleton_self newRow), hkeyNew⟩
    obtain ⟨r, hsel, hmem, hkey⟩ :=
      selectEntity_finds_key (tbl ++ [newRow]) identifier dbt dv hcase hwfb2 hex2
    have hrnew : r = newRow := by
      rcases List.mem_append.mp hmem with hr | hr
      · exact absurd hkey (hnone r hr)
      · exact List.mem_singleton.mp hr
    have hcall2 : get_or_create_core (tbl ++ [newRow]) identifier dbt dv =
        (.ok r.id, tbl ++ [newRow]) := by
      rw [get_or_create_core, if_pos hany2, hsel]
    refine ⟨nextEntityId tbl, by rw [hcall1], ?_, ?_⟩ <;>
      simp only [hcall1] <;> rw [hcall2, hrnew]

/-- C3: on a well-formed `entities` table, resolving the same identifier
and entity kind twice in sequence returns the same entity id both times —
the first call inserts the row if absent, and the second recovers the
existing id by looking up the same uniqueness key, leaving the table
unchanged (no duplicate entity). -/
theorem get_or_create_entity_idempotent (tbl : List Entity)
    (identifier entity_type : String) (hwf : EntitiesWf tbl) :
    ∃ eid : Nat,
      (get_or_create_entity tbl identifier entity_type).1 = .ok eid ∧
      (get_or_create_entity (get_or_create_entity tbl identifier entity_type).2
        identifier entity_type).1 = .ok eid ∧
      (get_or_create_entity (get_or_create_entity tbl identifier entity_type).2
        identifier entity_type).2 =
        (get_or_create_entity tbl identifier entity_type).2 := by
  rw [get_or_create_entity]
  exact get_or_create_core_idempotent tbl identifier _ _
    (by by_cases h : entity_type = "domain" <;> simp [h]) hwf

/-- A Python dict of OSINT data, as a key-value list (`not data` is `data
= []`). -/
abbrev OsintData := List (String × String)

/-- A row of the `osint_profiles` table. -/
structure ProfileRow where
  entity_id : Nat
  source : String
  raw_data : String
  extracted_fields : String
  updated_at : ℚ
deriving DecidableEq

/-- The `(entity_id, source)` pair of a row matches the given one. -/
def pairMatches (eid : Nat) (source : String) (r : ProfileRow) : Bool :=
  r.entity_id == eid && r.source == source

/-- Modelled from the spec: `db/schema.py` is missing from the sources; §6
declares `osint_profiles(...)` *unique on (entity_id, source)* and §3 that
re-profiling advances `updatedAt`, so `INSERT ... ON CONFLICT(entity_id,
source) DO UPDATE` replaces the conflicting row in place (stamped
`CURRENT_TIMESTAMP`) and a fresh insert appends the row. -/
def upsertProfile (tbl : List ProfileRow) (row : ProfileRow) : List ProfileRow :=
  if tbl.any (pairMatches row.entity_id row.source) then
    tbl.map (fun r => if pairMatches row.entity_id row.source r then row else r)
  else tbl ++ [row]

/-- `OSINTExtractor._save_osint_profile`: return without writing when
`data` is falsy, otherwise upsert the `(entity_id, source)` row with the
serialized payload (`json.dumps(standardize_for_json(data))`), the
flattened summary (`json.dumps(extract_structured_fields(data, source))`)
and the current timestamp.  The two serializers live in
`utils/data_processing.py` and do not affect the upsert shape, so they are
parameters of the embedding. -/
def save_osint_profile (standardize : OsintData → String)
    (extractF : OsintData → String → String) (now : ℚ)
    (tbl : List ProfileRow) (entity_id : Nat) (source : String)
    (data : OsintData) : List ProfileRow :=
  if data = [] then tbl
  else upsertProfile tbl
    ⟨entity_id, source, standardize data, extractF data source, now⟩

/-- The spec-modelled invariant of `osint_profiles`: at most one row per
`(entity_id, source)` pair. -/
def ProfilesWf (tbl : List ProfileRow) : Prop :=
  tbl.Pairwise (fun a b => ¬(a.entity_id = b.entity_id ∧ a.source = b.source))

/-- A sequence of `_save_osint_profile` calls for one `(entity, source)`
pair, each with its own payload and timestamp. -/
def saveRuns (standardize : OsintData → String)
    (extractF : OsintData → String → String) (eid : Nat) (source : String)
    (tbl : List ProfileRow) (runs : List (OsintData × ℚ)) : List ProfileRow :=
  runs.foldl
    (fun t run => save_osint_profile standardize extractF run.2 t eid source run.1)
    tbl

theorem pairMatches_iff {eid : Nat} {source : String} {r : ProfileRow} :
    pairMatches eid source r = true ↔ r.entity_id = eid ∧ r.source = source := by
  simp [pairMatches]

theorem upsertProfile_filter (tbl : List ProfileRow) (row : ProfileRow)
    (hwf : ProfilesWf tbl) :
    (upsertProfile tbl row).filter (pairMatches row.entity_id row.source) = [row] := by
  have hrow : pairMatches row.entity_id row.source row = true := by
    simp [pairMatches]
  rw [upsertProfile]
  by_cases hany : tbl.any (pairMatches row.entity_id row.source) = true
  · rw [if_pos hany]
    clear hrow
    induction tbl with
    | nil => simp at hany
    | cons a t ih =>
      by_cases hpa : pairMatches row.entity_id row.source a = true
      · rw [List.map_cons, if_pos hpa, List.filter_cons]
        simp only [pairMatches_iff.mpr ⟨rfl, rfl⟩, if_true]
        have hnone : ∀ b ∈ t, ¬ pairMatches row.entity_id row.source b = true := by
          intro b hb hpb
          have hab := (List.pairwise_cons.mp hwf).1 b hb
          obtain ⟨ha1, ha2⟩ := pairMatches_iff.mp hpa
          obtain ⟨hb1, hb2⟩ := pairMatches_iff.mp hpb
          exact hab ⟨ha1.trans hb1.symm, ha2.trans hb2.symm⟩
        have : (t.map (fun r =>
            if pairMatches row.entity_id row.source r = true then row else r)).filter
              (pairMatches row.entity_id row.source) = [] := by
          rw [List.filter_eq_nil]
          intro b hb
          obtain ⟨b0, hb0, rfl⟩ := List.mem_map.mp hb
          rw [if_neg (hnone b0 hb0)]
          exact hnone b0 hb0
        simpa using this
      · rw [List.map_cons, if_neg hpa, List.filter_cons]
        simp only [Bool.eq_false_iff.mpr hpa, if_false, Bool.false_eq_true]
        have hany2 : t.any (pairMatches row.entity_id row.source) = true := by
          rcases List.any_eq_true.mp hany with ⟨b, hb, hpb⟩
          rcases List.mem_cons.mp hb with rfl | hb
          · exact absurd hpb hpa
          · exact List.any_eq_true.mpr ⟨b, hb, hpb⟩
        exact ih (List.Pairwise.tail hwf) hany2
  · rw [if_neg hany]
    rw [List.filter_append]
    have h1 : tbl.filter (pairMatches row.entity_id row.source) = [] := by
      rw [List.filter_eq_nil]
      exact List.any_eq_false.mp (Bool.eq_false_iff.mpr hany)
    rw [h1, List.filter_cons]
    simp [hrow]

theorem upsertProfile_wf (tbl : List ProfileRow) (row : ProfileRow)
    (hwf : ProfilesWf tbl) : ProfilesWf (upsertProfile tbl row) := by
  rw [upsertProfile]
  by_cases hany : tbl.any (pairMatches row.entity_id row.source) = true
  · rw [if_pos hany]
    have hpair : ∀ x : ProfileRow,
        (if pairMatches row.entity_id row.source x = true then row
          else x).entity_id = x.entity_id ∧
        (if pairMatches row.entity_id row.source x = true then row
          else x).source = x.source := by
      intro x
      by_cases hp : pairMatches row.entity_id row.source x = true
      · rw [if_pos hp]
        exact ⟨(pairMatches_iff.mp hp).1.symm, (pairMatches_iff.mp hp).2.symm⟩
      · rw [if_neg hp]
        exact ⟨rfl, rfl⟩
    refine List.Pairwise.map _ ?_ hwf
    intro a b hab hfab
    obtain ⟨h1, h2⟩ := hfab
    exact hab ⟨(hpair a).1.symm.trans (h1.trans (hpair b).1),
               (hpair a).2.symm.trans (h2.trans (hpair b).2)⟩
  · rw [if_neg hany]
    rw [ProfilesWf, List.pairwise_append]
    refine ⟨hwf, List.pairwise_singleton _ _, ?_⟩
    intro a ha b hb ⟨h1, h2⟩
    rcases List.mem_singleton.mp hb with rfl
    have := List.any_eq_false.mp (Bool.eq_false_iff.mpr hany) a ha
    exact this (pairMatches_iff.mpr ⟨h1, h2⟩)

/-- C2: starting from a table with at most one row per `(entity, source)`
pair, any nonempty sequence of profile saves with nonempty data for the
same pair leaves exactly one `osint_profiles` row for the pair — its
`raw_data` and `extracted_fields` are the serializations of the last
payload and its `updated_at` is the last save's timestamp — and the
one-row-per-pair invariant still holds (never a second row). -/
theorem save_osint_profile_upsert_idempotent (standardize : OsintData → String)
    (extractF : OsintData → String → String) (eid : Nat) (source : String)
    (tbl : List ProfileRow) (runs : List (OsintData × ℚ)) (lastRun : OsintData × ℚ)
    (hwf : ProfilesWf tbl)
    (hdata : ∀ run ∈ runs, run.1 ≠ [])
    (hlast : runs.getLast? = some lastRun) :
    (saveRuns standardize extractF eid source tbl runs).filter
        (pairMatches eid source) =
      [⟨eid, source, standardize lastRun.1, extractF lastRun.1 source, lastRun.2⟩] ∧
    ProfilesWf (saveRuns standardize extractF eid source tbl runs) := by
  induction runs generalizing tbl with
  | nil => simp at hlast
  | cons run rest ih =>
    have hdrun : run.1 ≠ [] := hdata run (List.mem_cons_self run rest)
    have hsave : save_osint_profile standardize extractF run.2 tbl eid source run.1 =
        upsertProfile tbl
          ⟨eid, source, standardize run.1, extractF run.1 source, run.2⟩ := by
      rw [save_osint_profile, if_neg hdrun]
    cases rest with
    | nil =>
      have hlr : lastRun = run := by simpa using hlast.symm
      rw [saveRuns, List.foldl_cons, List.foldl_nil, hsave, hlr]
      exact ⟨upsertProfile_filter tbl
          ⟨eid, source, standardize run.1, extractF run.1 source, run.2⟩ hwf,
        upsertProfile_wf tbl _ hwf⟩
    | cons r2 rest2 =>
      have hlast2 : (r2 :: rest2).getLast? = some lastRun := by
        rwa [List.getLast?_cons_cons] at hlast
      have hdata2 : ∀ r ∈ r2 :: rest2, r.1 ≠ [] :=
        fun r hr => hdata r (List.mem_cons_of_mem run hr)
      have hwf2 : ProfilesWf (save_osint_profile standardize extractF run.2 tbl
          eid source run.1) := by
        rw [hsave]
        exact upsertProfile_wf tbl _ hwf
      have := ih (save_osint_profile standardize extractF run.2 tbl eid source run.1)
        hwf2 hdata2 hlast2
      rwa [saveRuns, List.foldl_cons]

/-- Witness for `save_osint_profile_upsert_idempotent`: two saves for the
pair `(1, "domain")` on an empty table. -/
theorem save_osint_profile_upsert_idempotent_witness :
    (saveRuns (fun _ => "RAW") (fun _ _ => "FIELDS") 1 "domain" []
        [([("k", "v1")], 10), ([("k", "v2")], 20)]).filter (pairMatches 1 "domain") =
      [⟨1, "domain", (fun _ : OsintData => "RAW") [("k", "v2")],
        (fun _ : OsintData => fun _ : String => "FIELDS") [("k", "v2")] "domain", 20⟩] ∧
    ProfilesWf (saveRuns (fun _ => "RAW") (fun _ _ => "FIELDS") 1 "domain" []
        [([("k", "v1")], 10), ([("k", "v2")], 20)]) :=
  save_osint_profile_upsert_idempotent (fun _ => "RAW") (fun _ _ => "FIELDS")
    1 "domain" [] [([("k", "v1")], 10), ([("k", "v2")], 20)] ([("k", "v2")], 20)
    List.Pairwise.nil (by simp) rfl

/-- Witness for `get_or_create_entity_idempotent`: resolving
`("example.com", domain)` twice on an empty table. -/
theorem get_or_create_entity_idempotent_witness :
    ∃ eid : Nat,
      (get_or_create_entity [] "example.com" "domain").1 = .ok eid ∧
      (get_or_create_entity (get_or_create_entity [] "example.com" "domain").2
        "example.com" "domain").1 = .ok eid ∧
      (get_or_create_entity (get_or_create_entity [] "example.com" "domain").2
        "example.com" "domain").2 =
        (get_or_create_entity [] "example.com" "domain").2 :=
  get_or_create_entity_idempotent [] "example.com" "domain"
    ⟨List.Pairwise.nil, by simp⟩

/-! ### Shodan batch lookup (`fetch_shodan` in
`src/scraper/utils/clients.py`) -/

/-- `set.add` on a set modelled as a duplicate-free list, for any element
type. -/
def insertNewG {α : Type} [DecidableEq α] (l : List α) (x : α) : List α :=
  if x ∈ l then l else l ++ [x]

/-- `set.update(xs)`. -/
def unionG {α : Type} [DecidableEq α] (l xs : List α) : List α :=
  xs.foldl insertNewG l

theorem mem_insertNewG {α : Type} [DecidableEq α] {l : List α} {x y : α} :
    y ∈ insertNewG l x ↔ y ∈ l ∨ y = x := by
  unfold insertNewG
  by_cases h : x ∈ l
  · simp only [if_pos h]
    constructor
    · exact fun hy => Or.inl hy
    · rintro (hy | rfl) <;> [exact hy; exact h]
  · simp [if_neg h]

theorem mem_unionG {α : Type} [DecidableEq α] (xs : List α) :
    ∀ (l : List α) (y : α), y ∈ unionG l xs ↔ y ∈ l ∨ y ∈ xs := by
  induction xs with
  | nil => simp [unionG]
  | cons a t ih =>
    intro l y
    rw [unionG, List.foldl_cons]
    rw [show List.foldl insertNewG (insertNewG l a) t = unionG (insertNewG l a) t from rfl]
    rw [ih, mem_insertNewG, List.mem_cons]
    tauto

/-- The per-host record the Shodan client reads
(`ports`/`hostnames`/`org`/`isp`/`vulns` of `api.host(ip)`). -/
structure HostInfo where
  ports : List Nat
  hostnames : List String
  org : Option String
  isp : Option String
  vulns : List String

/-- The `results["summary"]` aggregate of `fetch_shodan`. -/
structure ShodanSummary where
  ports : List Nat
  hostnames : List String
  organizations : List String
  isps : List String
  vulnerabilities : List String

def emptySummary : ShodanSummary := ⟨[], [], [], [], []⟩

/-- The `results` mapping of `fetch_shodan`: the queried addresses, the
per-address raw detail (`data_by_ip`, an error entry for a failed address),
and the aggregated summary. -/
structure ShodanResult where
  ips_queried : List String
  data_by_ip : List (String × Except String HostInfo)
  summary : ShodanSummary

/-- The overall return value of `fetch_shodan`: a top-level `{"error": …}`
mapping, the `{"info": …}` mapping for an empty address list, or the
populated `results`. -/
inductive ShodanOut where
  | err (msg : String)
  | noIps
  | ok (r : ShodanResult)

/-- `results["summary"][…].add(org)` under the `if host_info.get("org"):`
truthiness guard. -/
def addOrg (l : List String) (o : Option String) : List String :=
  match o with
  | some s => if s == "" then l else insertNewG l s
  | none => l

/-- Assignment to a Python dict key: replace the entry in place when the
key exists, else append it. -/
def setAssoc (m : List (String × Except String HostInfo)) (k : String)
    (v : Except String HostInfo) : List (String × Except String HostInfo) :=
  if m.any (fun p => p.1 == k) then
    m.map (fun p => if p.1 == k then (k, v) else p)
  else m ++ [(k, v)]

/-- The body of the `for ip in ip_addresses` loop of `fetch_shodan`: on
success record the raw host data under the address and merge the truthy
fields into the summary; on a per-address failure (`shodan.APIError` or any
other exception) record an error entry under the address and leave the
summary unchanged. -/
def shodanStep (host : String → Except String HostInfo) (acc : ShodanResult)
    (ip : String) : ShodanResult :=
  match host ip with
  | .ok h =>
    ShodanResult.mk acc.ips_queried (setAssoc acc.data_by_ip ip (.ok h))
      (ShodanSummary.mk
        (if h.ports ≠ [] then unionG acc.summary.ports h.ports
          else acc.summary.ports)
        (if h.hostnames ≠ [] then unionG acc.summary.hostnames h.hostnames
          else acc.summary.hostnames)
        (addOrg acc.summary.organizations h.org)
        (addOrg acc.summary.isps h.isp)
        (if h.vulns ≠ [] then unionG acc.summary.vulnerabilities h.vulns
          else acc.summary.vulnerabilities))
  | .error e => ShodanResult.mk acc.ips_queried
      (setAssoc acc.data_by_ip ip (.error e)) acc.summary

/-- `sorted(list(set))` on each summary set (ascending, as Python's
`sorted`). -/
def sortSummary (s : ShodanSummary) : ShodanSummary :=
  ⟨s.ports.insertionSort (· ≤ ·),
   s.hostnames.insertionSort (· < ·),
   s.organizations.insertionSort (· < ·),
   s.isps.insertionSort (· < ·),
   s.vulnerabilities.insertionSort (· < ·)⟩

/-- `fetch_shodan` from `src/scraper/utils/clients.py`: a falsy API key or
an empty address list short-circuit; a `shodan.Shodan(api_key)`
initialization failure (`init`) is the general `except` path returning a
top-level error; otherwise the per-address loop runs and the summary sets
are sorted into lists. -/
def fetch_shodan (api_key : Option String) (init : Except String Unit)
    (host : String → Except String HostInfo) (ip_addresses : List String) :
    ShodanOut :=
  if truthyOpt api_key = false then .err "API key for Shodan not provided"
  else if ip_addresses = [] then .noIps
  else
    match init with
    | .error e => .err ("Shodan API error: " ++ e)
    | .ok _ =>
      let r := ip_addresses.foldl (shodanStep host)
        (ShodanResult.mk ip_addresses [] emptySummary)
      .ok (ShodanResult.mk r.ips_queried r.data_by_ip (sortSummary r.summary))

theorem lookup_map_setAssoc {m : List (String × Except String HostInfo)}
    {k k2 : String} {v : Except String HostInfo} (hne : k2 ≠ k) :
    List.lookup k2 (m.map (fun p => if p.1 == k then (k, v) else p)) =
      List.lookup k2 m := by
  induction m with
  | nil => rfl
  | cons p t ih =>
    rw [List.map_cons]
    by_cases hp : (p.1 == k) = true
    · rw [if_pos hp]
      have h1 : (k2 == k) = false := by simpa using hne
      have h2 : (k2 == p.1) = false := by
        have : p.1 = k := by simpa using hp
        simpa [this] using hne
      rw [List.lookup_cons, List.lookup_cons, h1, h2]
      exact ih
    · rw [if_neg hp, List.lookup_cons, List.lookup_cons]
      rcases h2 : (k2 == p.1) with _ | _
      · exact ih
      · rfl

theorem lookup_append_left_none {m1 m2 : List (String × Except String HostInfo)}
    {k : String} (h : List.lookup k m1 = none) :
    List.lookup k (m1 ++ m2) = List.lookup k m2 := by
  induction m1 with
  | nil => rfl
  | cons p t ih =>
    rw [List.cons_append, List.lookup_cons]
    rw [List.lookup_cons] at h
    rcases hp : (k == p.1) with _ | _
    · rw [hp] at h
      exact ih h
    · rw [hp] at h
      cases h

theorem lookup_of_no_key {m : List (String × Except String HostInfo)} {k : String}
    (h : (∀ p ∈ m, (p.1 == k) = false)) : List.lookup k m = none := by
  induction m with
  | nil => rfl
  | cons p t ih =>
    rw [List.lookup_cons]
    have hp := h p (List.mem_cons_self p t)
    have hk : (k == p.1) = false := by
      simp only [beq_eq_false_iff_ne] at hp ⊢
      exact fun he => hp he.symm
    rw [hk]
    exact ih (fun q hq => h q (List.mem_cons_of_mem p hq))

theorem lookup_append_left_some {m1 m2 : List (String × Except String HostInfo)}
    {k : String} {w : Except String HostInfo} (h : List.lookup k m1 = some w) :
    List.lookup k (m1 ++ m2) = some w := by
  induction m1 with
  | nil => cases h
  | cons p t ih =>
    rw [List.cons_append, List.lookup_cons]
    rw [List.lookup_cons] at h
    rcases hp : (k == p.1) with _ | _
    · rw [hp] at h
      exact ih h
    · rw [hp] at h
      exact h

theorem lookup_map_setAssoc_self {m : List (String × Except String HostInfo)}
    {k : String} {v : Except String HostInfo}
    (hany : m.any (fun p => p.1 == k) = true) :
    List.lookup k (m.map (fun p => if p.1 == k then (k, v) else p)) = some v := by
  induction m with
  | nil => simp at hany
  | cons p t ih =>
    rw [List.any_cons] at hany
    rw [List.map_cons]
    by_cases hp : (p.1 == k) = true
    · rw [if_pos hp, List.lookup_cons]
      simp
    · rw [if_neg hp, List.lookup_cons]
      have hk2 : (k == p.1) = false := by
        rcases hq : (k == p.1) with _ | _
        · rfl
        · exact absurd (beq_iff_eq.mpr (beq_iff_eq.mp hq).symm) hp
      rw [hk2]
      refine ih ?_
      have hpf : (p.1 == k) = false := Bool.eq_false_iff.mpr hp
      simpa [hpf] using hany

theorem lookup_setAssoc_self (m : List (String × Except String HostInfo))
    (k : String) (v : Except String HostInfo) :
    List.lookup k (setAssoc m k v) = some v := by
  rw [setAssoc]
  by_cases hany : m.any (fun p => p.1 == k) = true
  · rw [if_pos hany]
    exact lookup_map_setAssoc_self hany
  · rw [if_neg hany]
    have hnone : List.lookup k m = none :=
      lookup_of_no_key (fun p hp =>
        Bool.eq_false_iff.mpr (List.any_eq_false.mp (Bool.eq_false_iff.mpr hany) p hp))
    rw [lookup_append_left_none hnone, List.lookup_cons]
    simp

theorem lookup_setAssoc_other (m : List (String × Except String HostInfo))
    (k k2 : String) (v : Except String HostInfo) (hne : k2 ≠ k) :
    List.lookup k2 (setAssoc m k v) = List.lookup k2 m := by
  rw [setAssoc]
  by_cases hany : m.any (fun p => p.1 == k) = true
  · rw [if_pos hany]
    exact lookup_map_setAssoc hne
  · rw [if_neg hany]
    rcases hl : List.lookup k2 m with _ | w
    · rw [lookup_append_left_none hl, List.lookup_cons]
      have : (k2 == k) = false := by simpa using hne
      rw [this]
      rfl
    · exact lookup_append_left_some hl

theorem shodanStep_data (host : String → Except String HostInfo)
    (acc : ShodanResult) (ip : String) :
    (shodanStep host acc ip).data_by_ip = setAssoc acc.data_by_ip ip (host ip) := by
  rcases hh : host ip with e | h <;> simp [shodanStep, hh]

theorem shodanStep_ips (host : String → Except String HostInfo)
    (acc : ShodanResult) (ip : String) :
    (shodanStep host acc ip).ips_queried = acc.ips_queried := by
  rcases hh : host ip with e | h <;> simp [shodanStep, hh]

theorem foldl_shodanStep_ips (host : String → Except String HostInfo) :
    ∀ (ips : List String) (acc : ShodanResult),
      (ips.foldl (shodanStep host) acc).ips_queried = acc.ips_queried := by
  intro ips
  induction ips with
  | nil => intro acc; rfl
  | cons a t ih =>
    intro acc
    rw [List.foldl_cons, ih, shodanStep_ips]

theorem lookup_foldl_shodanStep_not_mem (host : String → Except String HostInfo) :
    ∀ (ips : List String) (acc : ShodanResult) (ip : String), ip ∉ ips →
      List.lookup ip (ips.foldl (shodanStep host) acc).data_by_ip =
        List.lookup ip acc.data_by_ip := by
  intro ips
  induction ips with
  | nil => intro acc ip _; rfl
  | cons a t ih =>
    intro acc ip hip
    rw [List.foldl_cons, ih _ _ (fun h => hip (List.mem_cons_of_mem a h)),
      shodanStep_data,
      lookup_setAssoc_other _ _ _ _
        (fun h : ip = a => hip (by rw [h]; exact List.mem_cons_self a t))]

theorem lookup_foldl_shodanStep (host : String → Except String HostInfo) :
    ∀ (ips : List String) (acc : ShodanResult), ∀ ip ∈ ips,
      List.lookup ip (ips.foldl (shodanStep host) acc).data_by_ip =
        some (host ip) := by
  intro ips
  induction ips with
  | nil => intro acc ip hip; cases hip
  | cons a t ih =>
    intro acc ip hip
    rw [List.foldl_cons]
    by_cases hmem : ip ∈ t
    · exact ih _ ip hmem
    · rcases List.mem_cons.mp hip with rfl | h
      · rw [lookup_foldl_shodanStep_not_mem host t _ ip hmem, shodanStep_data,
          lookup_setAssoc_self]
      · exact absurd h hmem

/-- Pointwise containment of the summary sets. -/
def summaryLe (s1 s2 : ShodanSummary) : Prop :=
  (∀ x ∈ s1.ports, x ∈ s2.ports) ∧
  (∀ x ∈ s1.hostnames, x ∈ s2.hostnames) ∧
  (∀ x ∈ s1.organizations, x ∈ s2.organizations) ∧
  (∀ x ∈ s1.isps, x ∈ s2.isps) ∧
  (∀ x ∈ s1.vulnerabilities, x ∈ s2.vulnerabilities)

theorem summaryLe_refl (s : ShodanSummary) : summaryLe s s :=
  ⟨fun _ h => h, fun _ h => h, fun _ h => h, fun _ h => h, fun _ h => h⟩

theorem summaryLe_trans {s1 s2 s3 : ShodanSummary}
    (h12 : summaryLe s1 s2) (h23 : summaryLe s2 s3) : summaryLe s1 s3 :=
  ⟨fun x h => h23.1 x (h12.1 x h),
   fun x h => h23.2.1 x (h12.2.1 x h),
   fun x h => h23.2.2.1 x (h12.2.2.1 x h),
   fun x h => h23.2.2.2.1 x (h12.2.2.2.1 x h),
   fun x h => h23.2.2.2.2 x (h12.2.2.2.2 x h)⟩

theorem mem_addOrg_left {l : List String} {o : Option String} {x : String}
    (h : x ∈ l) : x ∈ addOrg l o := by
  rcases o with _ | s
  · exact h
  · simp only [addOrg]
    split
    · exact h
    · exact mem_insertNewG.mpr (Or.inl h)

theorem shodanStep_summary_ok (host : String → Except String HostInfo)
    (acc : ShodanResult) (ip : String) (h : HostInfo) (hok : host ip = .ok h) :
    (shodanStep host acc ip).summary = ShodanSummary.mk
      (if h.ports ≠ [] then unionG acc.summary.ports h.ports
        else acc.summary.ports)
      (if h.hostnames ≠ [] then unionG acc.summary.hostnames h.hostnames
        else acc.summary.hostnames)
      (addOrg acc.summary.organizations h.org)
      (addOrg acc.summary.isps h.isp)
      (if h.vulns ≠ [] then unionG acc.summary.vulnerabilities h.vulns
        else acc.summary.vulnerabilities) := by
  simp [shodanStep, hok]

theorem shodanStep_summaryLe (host : String → Except String HostInfo)
    (acc : ShodanResult) (ip : String) :
    summaryLe acc.summary (shodanStep host acc ip).summary := by
  rcases hh : host ip with e | h
  · simp only [shodanStep, hh]
    exact summaryLe_refl _
  · rw [shodanStep_summary_ok host acc ip h hh]
    refine ⟨?_, ?_, ?_, ?_, ?_⟩ <;> intro x hx <;> dsimp only
    · split
      · exact (mem_unionG _ _ _).mpr (Or.inl hx)
      · exact hx
    · split
      · exact (mem_unionG _ _ _).mpr (Or.inl hx)
      · exact hx
    · exact mem_addOrg_left hx
    · exact mem_addOrg_left hx
    · split
      · exact (mem_unionG _ _ _).mpr (Or.inl hx)
      · exact hx

theorem foldl_shodanStep_summaryLe (host : String → Except String HostInfo) :
    ∀ (ips : List String) (acc : ShodanResult),
      summaryLe acc.summary (ips.foldl (shodanStep host) acc).summary := by
  intro ips
  induction ips with
  | nil => intro acc; exact summaryLe_refl _
  | cons a t ih =>
    intro acc
    rw [List.foldl_cons]
    exact summaryLe_trans (shodanStep_summaryLe host acc a) (ih _)

/-- The contributions a successful host record makes to the summary. -/
def hostContrib (h : HostInfo) (s : ShodanSummary) : Prop :=
  (∀ p ∈ h.ports, p ∈ s.ports) ∧
  (∀ hn ∈ h.hostnames, hn ∈ s.hostnames) ∧
  (∀ o, h.org = some o → o ≠ "" → o ∈ s.organizations) ∧
  (∀ o, h.isp = some o → o ≠ "" → o ∈ s.isps) ∧
  (∀ v ∈ h.vulns, v ∈ s.vulnerabilities)

theorem hostContrib_mono {h : HostInfo} {s1 s2 : ShodanSummary}
    (hc : hostContrib h s1) (hle : summaryLe s1 s2) : hostContrib h s2 :=
  ⟨fun x hx => hle.1 x (hc.1 x hx),
   fun x hx => hle.2.1 x (hc.2.1 x hx),
   fun o ho hno => hle.2.2.1 o (hc.2.2.1 o ho hno),
   fun o ho hno => hle.2.2.2.1 o (hc.2.2.2.1 o ho hno),
   fun x hx => hle.2.2.2.2 x (hc.2.2.2.2 x hx)⟩

theorem mem_addOrg_self {l : List String} {o : String} (hno : o ≠ "") :
    o ∈ addOrg l (some o) := by
  simp only [addOrg]
  split
  · next hs => exact absurd (by simpa using hs) hno
  · exact mem_insertNewG.mpr (Or.inr rfl)

theorem shodanStep_contrib (host : String → Except String HostInfo)
    (acc : ShodanResult) (ip : String) (h : HostInfo) (hok : host ip = .ok h) :
    hostContrib h (shodanStep host acc ip).summary := by
  rw [hostContrib, shodanStep_summary_ok host acc ip h hok]
  refine ⟨?_, ?_, ?_, ?_, ?_⟩
  · intro p hp
    dsimp only
    rw [if_pos ?_]
    · exact (mem_unionG _ _ _).mpr (Or.inr hp)
    · intro he
      rw [he] at hp
      cases hp
  · intro hn hhn
    dsimp only
    rw [if_pos ?_]
    · exact (mem_unionG _ _ _).mpr (Or.inr hhn)
    · intro he
      rw [he] at hhn
      cases hhn
  · intro o ho hno
    dsimp only
    rw [ho]
    exact mem_addOrg_self hno
  · intro o ho hno
    dsimp only
    rw [ho]
    exact mem_addOrg_self hno
  · intro v hv
    dsimp only
    rw [if_pos ?_]
    · exact (mem_unionG _ _ _).mpr (Or.inr hv)
    · intro he
      rw [he] at hv
      cases hv

theorem foldl_shodanStep_contrib (host : String → Except String HostInfo) :
    ∀ (ips : List String) (acc : ShodanResult), ∀ ip ∈ ips, ∀ h : HostInfo,
      host ip = .ok h →
        hostContrib h (ips.foldl (shodanStep host) acc).summary := by
  intro ips
  induction ips with
  | nil => intro acc ip hip; cases hip
  | cons a t ih =>
    intro acc ip hip h hok
    rw [List.foldl_cons]
    rcases List.mem_cons.mp hip with rfl | hmem
    · exact hostContrib_mono (shodanStep_contrib host acc ip h hok)
        (foldl_shodanStep_summaryLe host t _)
    · exact ih _ ip hmem h hok

theorem sortSummary_le (s : ShodanSummary) : summaryLe s (sortSummary s) := by
  refine ⟨?_, ?_, ?_, ?_, ?_⟩ <;>
    intro x hx <;>
    exact (List.perm_insertionSort _ _).mem_iff.mpr hx

/-- C8: with a truthy API key, a successful client initialization and a
nonempty address list, `fetch_shodan` returns a populated result — never a
top-level error — in which every queried address has a `data_by_ip` entry
reflecting its own outcome (an error entry for a failing address, the raw
host data otherwise), and every successful address's
ports/hostnames/org/ISP/vulnerability-ids appear in the aggregated
summary: one address's failure never aborts the batch. -/
theorem fetch_shodan_batch_isolation (api_key : Option String)
    (host : String → Except String HostInfo) (ips : List String)
    (hkey : truthyOpt api_key = true) (hips : ips ≠ []) :
    ∃ r : ShodanResult,
      fetch_shodan api_key (.ok ()) host ips = .ok r ∧
      r.ips_queried = ips ∧
      (∀ ip ∈ ips, List.lookup ip r.data_by_ip = some (host ip)) ∧
      (∀ ip ∈ ips, ∀ h : HostInfo, host ip = .ok h →
        hostContrib h r.summary) := by
  rw [fetch_shodan, if_neg (by simp [hkey]), if_neg hips]
  refine ⟨_, rfl, ?_, ?_, ?_⟩
  · exact foldl_shodanStep_ips host ips _
  · intro ip hip
    exact lookup_foldl_shodanStep host ips _ ip hip
  · intro ip hip h hok
    exact hostContrib_mono (foldl_shodanStep_contrib host ips _ ip hip h hok)
      (sortSummary_le _)

/-- A concrete host oracle: full data for `1.2.3.4`, an error for any other
address. -/
def sampleHost : String → Except String HostInfo :=
  fun ip =>
    if ip = "1.2.3.4" then
      .ok ⟨[80, 443], ["a.example"], some "OrgA", some "ISP-A", ["CVE-2024-1"]⟩
    else .error "Invalid IP"

/-- Witness for `fetch_shodan_batch_isolation` on `["1.2.3.4", "bad-ip"]`
where the second address errors. -/
theorem fetch_shodan_batch_isolation_witness :
    ∃ r : ShodanResult,
      fetch_shodan (some "KEY") (.ok ()) sampleHost ["1.2.3.4", "bad-ip"] = .ok r ∧
      r.ips_queried = ["1.2.3.4", "bad-ip"] ∧
      (∀ ip ∈ ["1.2.3.4", "bad-ip"],
        List.lookup ip r.data_by_ip = some (sampleHost ip)) ∧
      (∀ ip ∈ ["1.2.3.4", "bad-ip"], ∀ h : HostInfo, sampleHost ip = .ok h →
        hostContrib h r.summary) :=
  fetch_shodan_batch_isolation (some "KEY") sampleHost ["1.2.3.4", "bad-ip"]
    (by decide) (by decide)

end Browsint
